import Mathlib

/-!
Verification of the FIRRTL LowerTypes pass (LowerTypes.cpp): a shallow
embedding of the type peeler, the annotation filter, the connect/subaccess
lowering visitors, and the hierarchical-path updater, with theorems checking
the natural-language specification against the code.
-/

namespace LowerTypes

/-- FIRRTL types, as used by the pass: ground types (unsigned/signed
integers and analog wires, each with a known bit width), bundles (named,
flippable fields) and vectors.  A bundle element is `(name, isFlip, type)`. -/
inductive FIRRTLType : Type where
  | uint (w : Nat)
  | sint (w : Nat)
  | analog (w : Nat)
  | bundle (elts : List (String × Bool × FIRRTLType))
  | vector (elem : FIRRTLType) (n : Nat)

/-- Modelled from the spec: the bit width of a leaf; every leaf carries a
width (`firrtl::getBitWidth` itself is not among the provided sources). -/
def groundBitWidth : FIRRTLType → Nat
  | .uint w => w
  | .sint w => w
  | .analog w => w
  | .bundle _ => 0
  | .vector _ _ => 0

/-- Translation of `FIRRTLType::isGround`: a type with no decomposable structure. -/
def FIRRTLType.isGround : FIRRTLType → Bool
  | .bundle _ => false
  | .vector _ _ => false
  | _ => true

mutual

/-- Translation of `hasZeroBitWidth` from LowerTypes.cpp: for a bundle, return true if some
element recursively has zero bit width, or the bundle has no elements; for a
vector, return true if it has no elements or its element type has zero bit
width; for a ground type, test the width itself. -/
def hasZeroBitWidth : FIRRTLType → Bool
  | .bundle elts => hasZeroBitWidthList elts || elts.isEmpty
  | .vector elem n => n == 0 || hasZeroBitWidth elem
  | g => groundBitWidth g == 0

/-- The element loop of `hasZeroBitWidth` over a bundle's elements. -/
def hasZeroBitWidthList : List (String × Bool × FIRRTLType) → Bool
  | [] => false
  | (_, _, t) :: rest => hasZeroBitWidth t || hasZeroBitWidthList rest

end

mutual

/-- Modelled from the spec: `FIRRTLType::isPassive` is not among the provided
sources; a passive type contains no flipped (direction-inverting) bundle
field, recursively. -/
def isPassive : FIRRTLType → Bool
  | .bundle elts => isPassiveList elts
  | .vector elem _ => isPassive elem
  | _ => true

/-- Element loop of `isPassive`. -/
def isPassiveList : List (String × Bool × FIRRTLType) → Bool
  | [] => true
  | (_, flip, t) :: rest => (!flip && isPassive t) && isPassiveList rest

end

mutual

/-- Modelled from the spec: `FIRRTLType::containsAnalog` is not among the
provided sources; whether the type contains an analog (bidirectional-wire)
component. -/
def containsAnalog : FIRRTLType → Bool
  | .analog _ => true
  | .bundle elts => containsAnalogList elts
  | .vector elem _ => containsAnalog elem
  | _ => false

/-- Element loop of `containsAnalog`. -/
def containsAnalogList : List (String × Bool × FIRRTLType) → Bool
  | [] => false
  | (_, _, t) :: rest => containsAnalog t || containsAnalogList rest

end

/-- Translation of `isPreservableAggregateType` from LowerTypes.cpp: the type can be kept
intact iff it is passive, contains no analog, and does not have zero
bit width. -/
def isPreservableAggregateType (t : FIRRTLType) : Bool :=
  isPassive t && !containsAnalog t && !hasZeroBitWidth t

mutual

/-- Modelled from the spec: `FIRRTLType::getMaxFieldID` is not among the
provided sources; the dense field-ID enumeration assigns each aggregate a
maximum field ID covering all of its (possibly nested) leaves and
intermediate nodes, with 0 denoting the whole value. -/
def getMaxFieldID : FIRRTLType → Nat
  | .bundle elts => getMaxFieldIDList elts
  | .vector elem n => n * (1 + getMaxFieldID elem)
  | _ => 0

/-- Element loop of `getMaxFieldID`: each element occupies one ID for itself
plus the IDs of its own subtree. -/
def getMaxFieldIDList : List (String × Bool × FIRRTLType) → Nat
  | [] => 0
  | (_, _, t) :: rest => 1 + getMaxFieldID t + getMaxFieldIDList rest

end

/-- Modelled from the spec: `BundleType::getFieldID` is not among the provided
sources; the field ID of the i-th bundle element is one more than the IDs
consumed by the preceding elements. -/
def bundleGetFieldID : List (String × Bool × FIRRTLType) → Nat → Nat
  | _, 0 => 1
  | [], _ + 1 => 1
  | (_, _, t) :: rest, i + 1 => 1 + getMaxFieldID t + bundleGetFieldID rest i

/-- Modelled from the spec: `FVectorType::getFieldID` is not among the
provided sources; element i starts right after the i preceding element
subtrees. -/
def vectorGetFieldID (elem : FIRRTLType) (i : Nat) : Nat :=
  1 + i * (1 + getMaxFieldID elem)

/-- Translation of `FlatBundleFieldEntry` from LowerTypes.cpp: one field produced by peeling
one layer of an aggregate type. -/
structure FlatBundleFieldEntry : Type where
  ftype : FIRRTLType
  index : Nat
  fieldID : Nat
  suffix : String
  isOutput : Bool

/-- The bundle branch of `peelType`: one entry per element, in declaration
order, suffix an underscore plus the field name, polarity the flip flag. -/
def peelBundleFields (elts : List (String × Bool × FIRRTLType)) :
    List FlatBundleFieldEntry :=
  elts.enum.map fun p =>
    ⟨p.2.2.2, p.1, bundleGetFieldID elts p.1, "_" ++ p.2.1, p.2.2.1⟩

/-- The vector branch of `peelType`: one entry per index, ascending, suffix an
underscore plus the index, polarity never inverted. -/
def peelVectorFields (elem : FIRRTLType) (n : Nat) : List FlatBundleFieldEntry :=
  (List.range n).map fun i =>
    ⟨elem, i, vectorGetFieldID elem i, "_" ++ toString i, false⟩

/-- Translation of `peelType` from LowerTypes.cpp.  `none` models returning false (no
decomposition); `some fields` models returning true with the field list. -/
def peelType (t : FIRRTLType) (allowedToPreserveAggregate : Bool) :
    Option (List FlatBundleFieldEntry) :=
  if allowedToPreserveAggregate && isPreservableAggregateType t then none
  else
    match t with
    | .bundle elts => some (peelBundleFields elts)
    | .vector elem n => some (peelVectorFields elem n)
    | _ => none

/-- The module-policy inputs of `isModuleAllowedToPreserveAggregate`: whether
the module is an external (bodyless) declaration and whether it is public. -/
structure ModuleInfo : Type where
  isExternal : Bool
  isPublic : Bool

/-- Translation of `TypeLoweringVisitor::isModuleAllowedToPreserveAggregate` from
LowerTypes.cpp: preservation needs the pass switch; without the
force-public-decomposition switch any module qualifies; with it, external and
public modules never do. -/
def isModuleAllowedToPreserveAggregate (preserveAggregate preservePublicTypes : Bool)
    (m : ModuleInfo) : Bool :=
  if !preserveAggregate then false
  else if !preservePublicTypes then true
  else if m.isExternal then false
  else !m.isPublic

/-- An index operand of a dynamic vector access: either defined by a
`ConstantOp` (a compile-time constant) or any other (dynamic) value. -/
inductive Idx : Type where
  | const (c : Nat)
  | dyn (id : Nat)
deriving Repr, DecidableEq

/-- FIRRTL SSA values relevant to the pass: a root declaration of a known
type, and the three accessor operations (`SubfieldOp`, `SubindexOp`,
`SubaccessOp`) applied to a value. -/
inductive Exp : Type where
  | root (id : Nat) (ty : FIRRTLType)
  | subfield (e : Exp) (i : Nat)
  | subindex (e : Exp) (i : Nat)
  | subaccess (e : Exp) (idx : Idx)

/-- The type of a value: roots carry their type, `SubfieldOp` selects a bundle
element's type, `SubindexOp` and `SubaccessOp` select a vector's element
type.  `none` models an ill-typed access (impossible in verified IR). -/
def typeOf : Exp → Option FIRRTLType
  | .root _ t => some t
  | .subfield e i =>
    match typeOf e with
    | some (.bundle elts) => (elts.get? i).map fun x => x.2.2
    | _ => none
  | .subindex e _ =>
    match typeOf e with
    | some (.vector elem _) => some elem
    | _ => none
  | .subaccess e _ =>
    match typeOf e with
    | some (.vector elem _) => some elem
    | _ => none

/-- Translation of `TypeLoweringVisitor::getSubWhatever` from LowerTypes.cpp: build a
`SubfieldOp` for a bundle-typed value, a `SubindexOp` for a vector-typed
value; any other type hits `llvm_unreachable`, modelled as `none`. -/
def getSubWhatever (val : Exp) (i : Nat) : Option Exp :=
  match typeOf val with
  | some (.bundle _) => some (.subfield val i)
  | some (.vector _ _) => some (.subindex val i)
  | _ => none

/-- Translation of `isNotSubAccess` from LowerTypes.cpp: true for anything that is not a
`SubaccessOp`, and for a `SubaccessOp` with a constant index into a non-empty
vector (which is really a static subindex). -/
def isNotSubAccess (e : Exp) : Bool :=
  match e with
  | .subaccess inner (.const _) =>
    match typeOf inner with
    | some (.vector _ n) => n != 0
    | _ => true
  | .subaccess _ (.dyn _) => false
  | _ => true

/-- The accessor chain from a connect destination down to its root, outermost
first: the collection loop of `getSAWritePath`. -/
def collectAccessors : Exp → List Exp
  | .root _ _ => []
  | .subfield e i => Exp.subfield e i :: collectAccessors e
  | .subindex e i => Exp.subindex e i :: collectAccessors e
  | .subaccess e idx => Exp.subaccess e idx :: collectAccessors e

/-- The trimming loop of `getSAWritePath`: pop entries off the back of the
path while they are not genuine dynamic subaccesses. -/
def trimToSubAccess (l : List Exp) : List Exp :=
  (l.reverse.dropWhile isNotSubAccess).reverse

/-- Translation of `getSAWritePath` from LowerTypes.cpp: collect the accessors leading from
the statement's destination to its root, then trim static accessors off the
root end; empty means the destination involves no dynamic vector write. -/
def getSAWritePath (dest : Exp) : List Exp :=
  trimToSubAccess (collectAccessors dest)

/-- Translation of `cloneAccess` from LowerTypes.cpp: rebuild one accessor on top of a new
input value.  A non-accessor argument raises "Unknown accessor" in the
source and cannot occur on a write path; it is modelled as the identity. -/
def cloneAccess (opNode rhs : Exp) : Exp :=
  match opNode with
  | .subfield _ i => .subfield rhs i
  | .subindex _ i => .subindex rhs i
  | .subaccess _ idx => .subaccess rhs idx
  | .root _ _ => rhs

/-- One ground assignment produced by lowering, destination first. -/
structure ConnectStmt : Type where
  dest : Exp
  src : Exp

/-- One conditional block produced by `lowerSAWritePath`: a `WhenOp` guarded
by an equality test of the dynamic index operand against a constant, holding
a single connect of the source value to the reconstructed write path. -/
structure WhenBlock : Type where
  condIdx : Idx
  condVal : Nat
  body : ConnectStmt

/-- Translation of `TypeLoweringVisitor::lowerSAWritePath` from LowerTypes.cpp: for each
index of the dynamically accessed vector, emit a `WhenOp` guarded by an
equality of the index operand with that constant, whose body recreates the
write path on top of a static `SubindexOp` of that element and connects the
statement's source to it.  (`emitConnect` is modelled from the spec as
emitting the single assignment at this layer.) -/
def lowerSAWritePath (writePath : List Exp) (src : Exp) : List WhenBlock :=
  match writePath.getLast? with
  | some (.subaccess saoInput saoIdx) =>
    match typeOf saoInput with
    | some (.vector _ n) =>
      (List.range n).map fun index =>
        { condIdx := saoIdx, condVal := index,
          body := { dest := writePath.dropLast.foldr cloneAccess (.subindex saoInput index),
                    src := src } }
    | _ => []
  | _ => []

/-- The erasure loop at the end of `processSAPath`: after the statement is
unhooked, path operations are deleted from the destination outward while they
have no remaining uses; `hasExternalUse` tells which path operations are still
used by operations outside this statement. -/
def deadPathOps (writePath : List Exp) (hasExternalUse : Exp → Bool) : List Exp :=
  writePath.takeWhile fun e => !hasExternalUse e

/-- The per-field loop shared by `visitStmt(ConnectOp)` and
`visitStmt(StrictConnectOp)`: for each peeled field, take the field's
sub-element of source and destination and swap the two when the field's
polarity is inverted. -/
def buildFieldStmts (dest src : Exp) : List FlatBundleFieldEntry → Option (List ConnectStmt)
  | [] => some []
  | field :: rest =>
    match getSubWhatever src field.index, getSubWhatever dest field.index,
        buildFieldStmts dest src rest with
    | some s, some d, some tail =>
      some ((if field.isOutput then ⟨s, d⟩ else ⟨d, s⟩) :: tail)
    | _, _, _ => none

/-- Result of visiting a connect statement: `keep` models returning false
(the statement survives); the other two model returning true (the original
statement is erased by `lowerBlock`), carrying what was emitted in its
place. -/
inductive ConnectLowering : Type where
  | keep
  | saExpansion (blocks : List WhenBlock)
  | fieldConnects (stmts : List ConnectStmt)

/-- Translation of `TypeLoweringVisitor::visitStmt(ConnectOp)` from LowerTypes.cpp: first
try `processSAPath`; otherwise peel the destination type with preservation
disabled (the visitor's `preserveAggregate` flag is deliberately unused
here) and emit one connect per field, swapping source and destination for
flipped fields.  `none` models `llvm_unreachable`. -/
def visitConnectOp (preserveAggregate : Bool) (dest src : Exp) :
    Option ConnectLowering :=
  have _ := preserveAggregate
  if !(getSAWritePath dest).isEmpty then
    some (.saExpansion (lowerSAWritePath (getSAWritePath dest) src))
  else
    match typeOf dest with
    | some destTy =>
      match peelType destTy false with
      | none => some .keep
      | some fields => (buildFieldStmts dest src fields).map .fieldConnects
    | none => none

/-- Translation of `TypeLoweringVisitor::visitStmt(StrictConnectOp)` from LowerTypes.cpp:
identical shape to the `ConnectOp` case, emitting `StrictConnectOp`s. -/
def visitStrictConnectOp (preserveAggregate : Bool) (dest src : Exp) :
    Option ConnectLowering :=
  have _ := preserveAggregate
  if !(getSAWritePath dest).isEmpty then
    some (.saExpansion (lowerSAWritePath (getSAWritePath dest) src))
  else
    match typeOf dest with
    | some destTy =>
      match peelType destTy false with
      | none => some .keep
      | some fields => (buildFieldStmts dest src fields).map .fieldConnects
    | none => none

/-- Result of `visitExpr(SubaccessOp)`: the replacement for the dynamic
read. -/
inductive SubaccessLowered : Type where
  | invalidValue (elemTy : FIRRTLType)
  | staticIndex (input : Exp) (c : Nat)
  | multibitMux (index : Idx) (inputs : List Exp)

/-- Translation of `TypeLoweringVisitor::visitExpr(SubaccessOp)` from LowerTypes.cpp: an
access into a zero-element vector becomes an `InvalidValueOp` of the element
type; a constant index becomes the equivalent `SubindexOp`; otherwise a
`MultibitMuxOp` keyed on the index whose operands are all elements in
descending index order. -/
def visitSubaccess (input : Exp) (idx : Idx) : Option SubaccessLowered :=
  match typeOf input with
  | some (.vector elemTy n) =>
    if n == 0 then some (.invalidValue elemTy)
    else
      match idx with
      | .const c => some (.staticIndex input c)
      | .dyn d =>
        some (.multibitMux (.dyn d)
          (((List.range n).reverse).map fun index => Exp.subindex input index))
  | _ => none

/-- A consumer of an aggregate-typed result, as classified by
`processUsers`: a static index accessor, a static field accessor, or any
other operation kind. -/
inductive AggUser : Type where
  | subindexUser (i : Nat)
  | subfieldUser (i : Nat)
  | otherUser
deriving Repr, DecidableEq

/-- Translation of `TypeLoweringVisitor::processUsers` from LowerTypes.cpp: each
`SubindexOp`/`SubfieldOp` consumer is replaced by the mapped leaf value and
erased; any other consumer hits `llvm_unreachable`, modelled as `none`.  The
returned list gives the replacement value for each consumer in order. -/
def processUsers (users : List AggUser) (mapping : List Exp) : Option (List Exp) :=
  match users with
  | [] => some []
  | u :: rest =>
    match u with
    | .subindexUser i =>
      match mapping.get? i, processUsers rest mapping with
      | some repl, some tail => some (repl :: tail)
      | _, _ => none
    | .subfieldUser i =>
      match mapping.get? i, processUsers rest mapping with
      | some repl, some tail => some (repl :: tail)
      | _, _ => none
    | .otherUser => none

/-- An annotation dictionary, abstracted to the members the pass reads:
its class, the optional `circt.fieldID` member, the optional
`circt.nonlocal` symbol reference (naming a hierarchical path), and the
optional plain `fieldID` member used by field-ID-sensitive annotation
classes. -/
structure Annotation : Type where
  className : String
  circtFieldID : Option Int
  nonlocal : Option String
  sdFieldID : Option Int
deriving Repr, DecidableEq

/-- Translation of `isAnnotationSensitiveToFieldID` from LowerTypes.cpp. -/
def isAnnotationSensitiveToFieldID (a : Annotation) : Bool :=
  a.className == "sifive.enterprise.grandcentral.SignalDriverAnnotation"

/-- Translation of `updateAnnotationFieldID` from LowerTypes.cpp: annotations without a
field-ID qualifier pass through unchanged unless they belong to the
field-ID-sensitive class, in which case the entry's field ID is added to
their `fieldID` member. -/
def updateAnnotationFieldID (a : Annotation) (fieldID : Nat) : Annotation :=
  if fieldID == 0 then a
  else if !isAnnotationSensitiveToFieldID a then a
  else { a with sdFieldID := some ((fieldID : Int) + a.sdFieldID.getD 0) }

/-- One iteration of the annotation loop in
`TypeLoweringVisitor::filterAnnotations` from LowerTypes.cpp, threading the
`(retval, needsSym)` state.  An annotation without `circt.fieldID` is kept
(through `updateAnnotationFieldID`); one with a nonzero ID outside the
field's range is dropped; ID zero is kept with the qualifier erased; a
nonzero residual is kept rebased; a zero-residual `DontTouchAnnotation`
sets `needsSym` and is dropped; any other zero-residual annotation is kept
and overwrites `needsSym` with ground-and-non-local. -/
def filterAnnoStep (isGroundType : Bool) (field : FlatBundleFieldEntry)
    (st : List Annotation × Bool) (a : Annotation) : List Annotation × Bool :=
  match a.circtFieldID with
  | none => (st.1 ++ [updateAnnotationFieldID a field.fieldID], st.2)
  | some fieldID =>
    let anno : Annotation := { a with circtFieldID := none }
    if fieldID ≠ 0 ∧
        ¬((field.fieldID : Int) ≤ fieldID ∧
          fieldID ≤ (field.fieldID : Int) + (getMaxFieldID field.ftype : Int)) then
      st
    else if fieldID = 0 then (st.1 ++ [anno], st.2)
    else if fieldID - (field.fieldID : Int) ≠ 0 then
      (st.1 ++ [{ anno with
                    circtFieldID := some (fieldID - (field.fieldID : Int)) }], st.2)
    else if a.className = "firrtl.transforms.DontTouchAnnotation" then
      (st.1, true)
    else
      (st.1 ++ [anno], isGroundType && anno.nonlocal.isSome)

/-- Translation of `TypeLoweringVisitor::filterAnnotations` from LowerTypes.cpp, for one
flat field entry: the kept, re-targeted annotation list and the `needsSym`
flag (initialized to false by every caller). -/
def filterAnnotations (field : FlatBundleFieldEntry) (annos : List Annotation) :
    List Annotation × Bool :=
  annos.foldl (filterAnnoStep field.ftype.isGround field) ([], false)

/-- A `(module, inner symbol)` pair, as in `hw::InnerRefAttr`. -/
structure InnerRef : Type where
  moduleName : String
  symName : String
deriving Repr, DecidableEq

/-- A `HierPathOp`: a named hierarchical path, an ordered list of inner
references. -/
structure HierPathOp : Type where
  sym : String
  namepath : List InnerRef
deriving Repr, DecidableEq

/-- One derived leaf target recorded in `innerRefRenames` for a split
symbol: the new terminal inner reference and the annotations currently on
the target operation or port. -/
structure PathTarget : Type where
  ref : InnerRef
  annos : List Annotation
deriving Repr, DecidableEq

/-- Longest name in a set of used names (helper for the fresh-name
allocator's termination fuel). -/
def maxNameLen (used : List String) : Nat :=
  used.foldr (fun s acc => max s.length acc) 0

/-- Fuelled search for an unused name, lengthening the hint until it is
free. -/
def freshenAux : Nat → List String → String → String
  | 0, _, hint => hint
  | fuel + 1, used, hint =>
    if used.contains hint then freshenAux fuel used (hint ++ "_") else hint

/-- Modelled from the spec: `CircuitNamespace::newName` is not among the
provided sources; a process-wide allocator that returns a collision-free
name derived from the hint. -/
def freshen (used : List String) (hint : String) : String :=
  freshenAux (maxNameLen used + 1) used hint

/-- The `removeAnnotations`/`addAnnotations` pair in the hierarchical-path
update: annotations whose `circt.nonlocal` names the old path are removed
and re-added referencing the new path's name; all others stay in place. -/
def redirectAnnos (oldSym newSym : String) (annos : List Annotation) : List Annotation :=
  annos.filter (fun a => !(a.nonlocal == some oldSym)) ++
    (annos.filter (fun a => a.nonlocal == some oldSym)).map
      (fun a => { a with nonlocal := some newSym })

/-- The mutable state of the per-path loop in `LowerTypesPass::runOnOperation`
(LowerTypes.cpp): the namepath being rebuilt by pop/push, the
once-captured old path symbol, the circuit namespace, the NLA table, the
symbol table, and the accumulated new paths and updated targets. -/
structure C4State : Type where
  newNamepath : List InnerRef
  oldSym : Option String
  used : List String
  nla : List HierPathOp
  syms : List String
  newPaths : List HierPathOp
  targets : List PathTarget

/-- One iteration of the `for (auto &target : newRefs)` loop in
`LowerTypesPass::runOnOperation`: drop the last namepath element, pick the
path symbol (reusing the original path's name first and deleting the old
path from the NLA and symbol tables, minting a fresh name afterwards), push
the target's inner reference, create the new path, redirect the target's
non-local annotations, and insert the new path into both tables. -/
def processTarget (path : HierPathOp) (st : C4State) (t : PathTarget) : C4State :=
  let np := st.newNamepath.dropLast
  match st.oldSym with
  | none =>
    let newSym := path.sym
    let np2 := np ++ [t.ref]
    let newPath : HierPathOp := ⟨newSym, np2⟩
    { newNamepath := np2
      oldSym := some path.sym
      used := st.used
      nla := (st.nla.erase path) ++ [newPath]
      syms := (st.syms.erase path.sym) ++ [newSym]
      newPaths := st.newPaths ++ [newPath]
      targets := st.targets ++ [⟨t.ref, redirectAnnos path.sym newSym t.annos⟩] }
  | some o =>
    let newSym := freshen st.used o
    let np2 := np ++ [t.ref]
    let newPath : HierPathOp := ⟨newSym, np2⟩
    { newNamepath := np2
      oldSym := some o
      used := newSym :: st.used
      nla := st.nla ++ [newPath]
      syms := st.syms ++ [newSym]
      newPaths := st.newPaths ++ [newPath]
      targets := st.targets ++ [⟨t.ref, redirectAnnos path.sym newSym t.annos⟩] }

/-- The hierarchical-path update for one old path whose terminal inner
reference was split into `newRefs`: fold the per-target step over all
derived leaf targets, starting from the old path's namepath. -/
def updateOnePath (path : HierPathOp) (newRefs : List PathTarget)
    (used0 : List String) (nla0 : List HierPathOp) (syms0 : List String) : C4State :=
  newRefs.foldl (processTarget path) ⟨path.namepath, none, used0, nla0, syms0, [], []⟩

/-!  Specification-side definitions.  Each follows the words of a claim in
the specification and is compared against the corresponding definition
translated from the source. -/

/-- Reachability of a node inside a type's structure: the type itself, a
bundle element's subtree, or a vector's element subtree. -/
inductive Subnode : FIRRTLType → FIRRTLType → Prop where
  | refl (t : FIRRTLType) : Subnode t t
  | bundleElt {elts : List (String × Bool × FIRRTLType)} {s : FIRRTLType}
      (nm : String) (flip : Bool) (et : FIRRTLType) :
      (nm, flip, et) ∈ elts → Subnode et s → Subnode (.bundle elts) s
  | vectorElt {elem s : FIRRTLType} (n : Nat) :
      Subnode elem s → Subnode (.vector elem n) s

/-- Number of immediate elements of an aggregate. -/
def numElementsTop : FIRRTLType → Option Nat
  | .bundle elts => some elts.length
  | .vector _ n => some n
  | _ => none

/-- A node witnessing zero bit width: a zero-width leaf, or an aggregate
with zero elements. -/
def ZeroNode (s : FIRRTLType) : Prop :=
  (s.isGround = true ∧ groundBitWidth s = 0) ∨ numElementsTop s = some 0

mutual

/-- The claim's recognizer for C2, as stated: every reachable leaf of the
type has zero width. -/
def allLeavesZero : FIRRTLType → Bool
  | .bundle elts => allLeavesZeroList elts
  | .vector elem _ => allLeavesZero elem
  | g => groundBitWidth g == 0

/-- Element loop of `allLeavesZero`. -/
def allLeavesZeroList : List (String × Bool × FIRRTLType) → Bool
  | [] => true
  | (_, _, t) :: rest => allLeavesZero t && allLeavesZeroList rest

end

/-- C2 exactly as claimed: every reachable leaf has zero width, or the type
itself has zero elements. -/
def specZeroBitWidthClaim (t : FIRRTLType) : Bool :=
  allLeavesZero t || (numElementsTop t == some 0)

/-- C1 as claimed: the i-th emitted connect pairs the i-th sub-element of
source and destination, swapped exactly for the fields whose polarity flag
is inverted; vector fields are never inverted. -/
def specPerFieldConnects (t : FIRRTLType) (dest src : Exp) : List ConnectStmt :=
  match t with
  | .bundle elts =>
    elts.enum.map fun p =>
      if p.2.2.1 then ⟨.subfield src p.1, .subfield dest p.1⟩
      else ⟨.subfield dest p.1, .subfield src p.1⟩
  | .vector _ n =>
    (List.range n).map fun i => ⟨.subindex dest i, .subindex src i⟩
  | _ => []

/-- C5 as claimed: a zero-element vector access becomes a placeholder
invalid value; a constant index becomes the equivalent static access;
otherwise a multiplexer keyed on the index whose operand list holds all n
elements in descending index order (element 0 last). -/
def specSubaccessResult (input : Exp) (idx : Idx) (elemTy : FIRRTLType) (n : Nat) :
    SubaccessLowered :=
  if n = 0 then .invalidValue elemTy
  else
    match idx with
    | .const c => .staticIndex input c
    | .dyn d =>
      .multibitMux (.dyn d) ((List.range n).map fun i => Exp.subindex input (n - 1 - i))

/-- C6 as claimed: one conditional block per vector index k, guarded by an
equality of the dynamic index with k, containing the write path rebuilt on
top of the static access of element k and a single connect of the source. -/
def specSAWhenBlocks (writePath : List Exp) (src saoInput : Exp) (saoIdx : Idx)
    (n : Nat) : List WhenBlock :=
  (List.range n).map fun k =>
    ⟨saoIdx, k, ⟨writePath.dropLast.foldr cloneAccess (.subindex saoInput k), src⟩⟩

/-- C3 as claimed, per annotation: no qualifier passes through (via
`updateAnnotationFieldID`); field ID zero is retained with the qualifier
cleared; a nonzero field ID outside `[F.fieldID, F.fieldID + maxFieldID]`
is dropped; a nonzero residual is retained rebased to the residual; a
zero-residual DontTouch is dropped (in favor of the needs-symbol flag); any
other zero-residual annotation is retained with the qualifier cleared. -/
def specKeepAnno (field : FlatBundleFieldEntry) (a : Annotation) : Option Annotation :=
  match a.circtFieldID with
  | none => some (updateAnnotationFieldID a field.fieldID)
  | some fid =>
    if fid = 0 then some { a with circtFieldID := none }
    else if ¬((field.fieldID : Int) ≤ fid ∧
        fid ≤ (field.fieldID : Int) + (getMaxFieldID field.ftype : Int)) then none
    else if fid - (field.fieldID : Int) ≠ 0 then
      some { a with circtFieldID := some (fid - (field.fieldID : Int)) }
    else if a.className = "firrtl.transforms.DontTouchAnnotation" then none
    else some { a with circtFieldID := none }

/-- Whether an annotation reaches the zero-residual branches that write the
`needsSym` flag: its field ID equals the entry's (nonzero) field ID. -/
def decidesFlag (field : FlatBundleFieldEntry) (a : Annotation) : Bool :=
  a.circtFieldID == some (field.fieldID : Int) && field.fieldID != 0

/-- The flag value written by a zero-residual annotation: true for a
DontTouch, otherwise ground-typed and non-local. -/
def flagOf (field : FlatBundleFieldEntry) (a : Annotation) : Bool :=
  if a.className = "firrtl.transforms.DontTouchAnnotation" then true
  else field.ftype.isGround && a.nonlocal.isSome

/-- C3 amended: the returned needs-symbol flag is decided by the last
annotation whose field ID equals the entry's field ID (the flag is
overwritten, not accumulated). -/
def specNeedsSym (field : FlatBundleFieldEntry) (annos : List Annotation) : Bool :=
  match (annos.filter (decidesFlag field)).getLast? with
  | none => false
  | some a => flagOf field a

/-- The field-index a consumer accesses, if it is a static accessor. -/
def AggUser.accessIndex : AggUser → Option Nat
  | .subindexUser i => some i
  | .subfieldUser i => some i
  | .otherUser => none

/-!  Concrete example inputs used by the witness and counterexample
theorems below. -/

/-- A two-field bundle with a flipped first field (example input). -/
def c1exTy : FIRRTLType := .bundle [("a", true, .uint 1), ("b", false, .uint 2)]

/-- Example destination declaration of type `c1exTy`. -/
def c1exDest : Exp := .root 0 c1exTy

/-- Example source declaration of type `c1exTy`. -/
def c1exSrc : Exp := .root 1 c1exTy

/-- A bundle with one nonzero-width and one zero-width leaf (example input). -/
def c2exTy : FIRRTLType := .bundle [("a", false, .uint 1), ("b", false, .uint 0)]

/-- Example flat field entry at field ID 1 with ground type (example input). -/
def c3exField : FlatBundleFieldEntry := ⟨.uint 1, 0, 1, "_a", false⟩

/-- Example DontTouch annotation whose field ID equals the entry's. -/
def c3exDT : Annotation := ⟨"firrtl.transforms.DontTouchAnnotation", some 1, none, none⟩

/-- Example local annotation whose field ID equals the entry's. -/
def c3exOther : Annotation := ⟨"circt.test", some 1, none, none⟩

/-- Example annotation list: a DontTouch followed by a local annotation. -/
def c3exAnnos : List Annotation := [c3exDT, c3exOther]

/-- Example hierarchical path ending at inner symbol `w` (example input). -/
def c4exPath : HierPathOp := ⟨"nla_0", [⟨"Top", "inst"⟩, ⟨"Mid", "w"⟩]⟩

/-- Example non-local annotation referencing `nla_0`. -/
def c4exAnno1 : Annotation := ⟨"circt.test", none, some "nla_0", none⟩

/-- Example local annotation on a split target. -/
def c4exAnno2 : Annotation := ⟨"circt.other", none, none, none⟩

/-- Two derived leaf targets for the split symbol `w`. -/
def c4exRefs : List PathTarget :=
  [⟨⟨"Mid", "w_a"⟩, [c4exAnno1]⟩, ⟨⟨"Mid", "w_b"⟩, [c4exAnno1, c4exAnno2]⟩]

/-- Example circuit namespace contents. -/
def c4exUsed : List String := ["Top", "Mid", "nla_0"]

/-- Example NLA table contents. -/
def c4exNla : List HierPathOp := [c4exPath]

/-- Example symbol table contents. -/
def c4exSyms : List String := ["nla_0"]

/-- Example 4-element vector declaration read dynamically. -/
def c5exInput : Exp := .root 2 (.vector (.uint 1) 4)

/-- Example element type of the dynamically written vector. -/
def c6exElemTy : FIRRTLType := .bundle [("x", false, .uint 1)]

/-- Example root declaration: a 4-element vector of bundles. -/
def c6exRoot : Exp := .root 3 (.vector c6exElemTy 4)

/-- Example dynamic access into the vector. -/
def c6exSao : Exp := .subaccess c6exRoot (.dyn 5)

/-- Example write destination: a static field access on top of the dynamic
access. -/
def c6exDest : Exp := .subfield c6exSao 0

/-- Example source value connected to the destination. -/
def c6exSrc : Exp := .root 4 (.uint 1)

/-- The subaccess write path of `c6exDest`. -/
def c6exWp : List Exp := [c6exDest, c6exSao]

/-- Example preservable aggregate type (passive, no analog, nonzero width). -/
def c7exTy : FIRRTLType := .bundle [("a", false, .uint 1)]

/-- Example public module with a body. -/
def c7exMod : ModuleInfo := ⟨false, true⟩

/-- Example lowered leaf values an aggregate producer was split into. -/
def c9exMapping : List Exp := [.root 5 (.uint 1), .root 6 (.uint 1)]

/-- Example consumers: two static accessors. -/
def c9exUsers : List AggUser := [.subfieldUser 1, .subindexUser 0]

/-- Example destination declaration of type `c7exTy` (a preservable type). -/
def c10exDest : Exp := .root 7 c7exTy

/-- Example source declaration of type `c7exTy`. -/
def c10exSrc : Exp := .root 8 c7exTy

/-!  Helper lemmas. -/

/-- The peeler returns no decomposition exactly for ground types and for
preservable types under an enabled preservation flag. -/
lemma peelType_eq_none_iff (t : FIRRTLType) (p : Bool) :
    peelType t p = none ↔
      (t.isGround = true ∨ (p = true ∧ isPreservableAggregateType t = true)) := by
  cases t <;> cases p <;>
    simp [peelType, FIRRTLType.isGround] <;>
    (try (cases h : isPreservableAggregateType _ <;> simp [h]))

/-- Reversing a mapped range flips the index. -/
lemma map_range_reverse {α : Type} (n : Nat) (f : Nat → α) :
    (List.map f (List.range n)).reverse = List.map (fun i => f (n - 1 - i)) (List.range n) := by
  apply List.ext_getElem
  · simp
  · intro i h1 h2
    simp only [List.getElem_reverse, List.getElem_map, List.getElem_range,
      List.length_map, List.length_range]

mutual

/-- The zero-bit-width recognizer holds exactly when some reachable node is a
zero-width leaf or a zero-element aggregate. -/
theorem hasZero_iff_subnode : ∀ (t : FIRRTLType),
    hasZeroBitWidth t = true ↔ ∃ s, Subnode t s ∧ ZeroNode s
  | .uint w => by
    simp only [hasZeroBitWidth, groundBitWidth, beq_iff_eq]
    constructor
    · intro h
      exact ⟨.uint w, .refl _, Or.inl ⟨rfl, h⟩⟩
    · rintro ⟨s, sub, zero⟩
      cases sub
      rcases zero with ⟨_, hw⟩ | hn
      · exact hw
      · simp [numElementsTop] at hn
  | .sint w => by
    simp only [hasZeroBitWidth, groundBitWidth, beq_iff_eq]
    constructor
    · intro h
      exact ⟨.sint w, .refl _, Or.inl ⟨rfl, h⟩⟩
    · rintro ⟨s, sub, zero⟩
      cases sub
      rcases zero with ⟨_, hw⟩ | hn
      · exact hw
      · simp [numElementsTop] at hn
  | .analog w => by
    simp only [hasZeroBitWidth, groundBitWidth, beq_iff_eq]
    constructor
    · intro h
      exact ⟨.analog w, .refl _, Or.inl ⟨rfl, h⟩⟩
    · rintro ⟨s, sub, zero⟩
      cases sub
      rcases zero with ⟨_, hw⟩ | hn
      · exact hw
      · simp [numElementsTop] at hn
  | .bundle elts => by
    simp only [hasZeroBitWidth, Bool.or_eq_true]
    constructor
    · rintro (hl | he)
      · obtain ⟨nm, fl, et, mem, s, sub, zero⟩ :=
          (hasZeroList_iff_subnode elts).mp hl
        exact ⟨s, .bundleElt nm fl et mem sub, zero⟩
      · refine ⟨.bundle elts, .refl _, Or.inr ?_⟩
        simp only [numElementsTop, Option.some.injEq]
        exact List.isEmpty_iff_length_eq_zero.mp he
    · rintro ⟨s, sub, zero⟩
      cases sub with
      | refl =>
        rcases zero with ⟨hg, _⟩ | hn
        · simp [FIRRTLType.isGround] at hg
        · right
          simp only [numElementsTop, Option.some.injEq] at hn
          exact List.isEmpty_iff_length_eq_zero.mpr hn
      | bundleElt nm fl et mem sub2 =>
        left
        exact (hasZeroList_iff_subnode elts).mpr ⟨nm, fl, et, mem, s, sub2, zero⟩
  | .vector elem n => by
    simp only [hasZeroBitWidth, Bool.or_eq_true, beq_iff_eq]
    constructor
    · rintro (hn | he)
      · exact ⟨.vector elem n, .refl _, Or.inr (by simp [numElementsTop, hn])⟩
      · obtain ⟨s, sub, zero⟩ := (hasZero_iff_subnode elem).mp he
        exact ⟨s, .vectorElt n sub, zero⟩
    · rintro ⟨s, sub, zero⟩
      cases sub with
      | refl =>
        rcases zero with ⟨hg, _⟩ | hn
        · simp [FIRRTLType.isGround] at hg
        · left
          simpa [numElementsTop] using hn
      | vectorElt _ sub2 =>
        right
        exact (hasZero_iff_subnode elem).mpr ⟨s, sub2, zero⟩

/-- Element-list counterpart of `hasZero_iff_subnode`. -/
theorem hasZeroList_iff_subnode : ∀ (l : List (String × Bool × FIRRTLType)),
    hasZeroBitWidthList l = true ↔
      ∃ nm fl et, (nm, fl, et) ∈ l ∧ ∃ s, Subnode et s ∧ ZeroNode s
  | [] => by
    simp [hasZeroBitWidthList]
  | (nm, fl, et) :: rest => by
    simp only [hasZeroBitWidthList, Bool.or_eq_true]
    constructor
    · rintro (hh | ht)
      · obtain ⟨s, sub, zero⟩ := (hasZero_iff_subnode et).mp hh
        exact ⟨nm, fl, et, List.mem_cons_self _ _, s, sub, zero⟩
      · obtain ⟨a, b, c, mem, s, sub, zero⟩ := (hasZeroList_iff_subnode rest).mp ht
        exact ⟨a, b, c, List.mem_cons_of_mem _ mem, s, sub, zero⟩
    · rintro ⟨a, b, c, mem, s, sub, zero⟩
      rcases List.mem_cons.mp mem with heq | hmem
      · left
        cases heq
        exact (hasZero_iff_subnode et).mpr ⟨s, sub, zero⟩
      · right
        exact (hasZeroList_iff_subnode rest).mpr ⟨a, b, c, hmem, s, sub, zero⟩

end

/-- When both sides are bundle-typed, the per-field loop produces one
subfield-to-subfield connect per entry, swapped on inverted polarity. -/
lemma buildFieldStmts_of_bundle (dest src : Exp)
    (eltsD eltsS : List (String × Bool × FIRRTLType))
    (hd : typeOf dest = some (.bundle eltsD)) (hs : typeOf src = some (.bundle eltsS)) :
    ∀ fs, buildFieldStmts dest src fs = some (fs.map fun f =>
      if f.isOutput then ConnectStmt.mk (.subfield src f.index) (.subfield dest f.index)
      else ConnectStmt.mk (.subfield dest f.index) (.subfield src f.index)) := by
  intro fs
  induction fs with
  | nil => rfl
  | cons f rest ih =>
    have h1 : getSubWhatever src f.index = some (.subfield src f.index) := by
      unfold getSubWhatever
      rw [hs]
    have h2 : getSubWhatever dest f.index = some (.subfield dest f.index) := by
      unfold getSubWhatever
      rw [hd]
    unfold buildFieldStmts
    rw [h1, h2, ih]
    rfl

/-- When both sides are vector-typed, the per-field loop produces one
subindex-to-subindex connect per entry, swapped on inverted polarity. -/
lemma buildFieldStmts_of_vector (dest src : Exp)
    (eD eS : FIRRTLType) (nD nS : Nat)
    (hd : typeOf dest = some (.vector eD nD)) (hs : typeOf src = some (.vector eS nS)) :
    ∀ fs, buildFieldStmts dest src fs = some (fs.map fun f =>
      if f.isOutput then ConnectStmt.mk (.subindex src f.index) (.subindex dest f.index)
      else ConnectStmt.mk (.subindex dest f.index) (.subindex src f.index)) := by
  intro fs
  induction fs with
  | nil => rfl
  | cons f rest ih =>
    have h1 : getSubWhatever src f.index = some (.subindex src f.index) := by
      unfold getSubWhatever
      rw [hs]
    have h2 : getSubWhatever dest f.index = some (.subindex dest f.index) := by
      unfold getSubWhatever
      rw [hd]
    unfold buildFieldStmts
    rw [h1, h2, ih]
    rfl

/-- The trimmed write path is a leading segment of the full accessor chain. -/
lemma trimToSubAccess_append (l : List Exp) : ∃ tail, trimToSubAccess l ++ tail = l := by
  have h : trimToSubAccess l <+: l := by
    rw [← List.reverse_suffix]
    unfold trimToSubAccess
    rw [List.reverse_reverse]
    exact List.dropWhile_suffix _
  exact h

/-- Rebuilding a leading accessor segment on a value of the same type as the
segment's last node reproduces the type of the original expression. -/
lemma foldr_clone_typeOf (e : Exp) :
    ∀ (l tail : List Exp) (x w : Exp),
      collectAccessors e = l ++ tail → l.getLast? = some w → typeOf x = typeOf w →
      typeOf (l.dropLast.foldr cloneAccess x) = typeOf e := by
  induction e with
  | root a b =>
    intro l tail x w hcol hlast hx
    have hnil : l = [] := (List.append_eq_nil.mp hcol.symm).1
    subst hnil
    simp at hlast
  | subfield e2 i ih =>
    intro l tail x w hcol hlast hx
    cases l with
    | nil => simp at hlast
    | cons a l2 =>
      simp only [collectAccessors, List.cons_append, List.cons.injEq] at hcol
      obtain ⟨ha, hcol2⟩ := hcol
      cases l2 with
      | nil =>
        simp only [List.getLast?_singleton, Option.some.injEq] at hlast
        subst hlast
        subst ha
        simpa [List.dropLast] using hx
      | cons b l3 =>
        have hlast2 : (b :: l3).getLast? = some w := by
          rw [← hlast]
          exact List.getLast?_cons_cons.symm
        have ihR := ih (b :: l3) tail x w hcol2 hlast2 hx
        subst ha
        simp only [List.dropLast_cons₂, List.foldr_cons, cloneAccess]
        simp only [typeOf]
        rw [ihR]
  | subindex e2 i ih =>
    intro l tail x w hcol hlast hx
    cases l with
    | nil => simp at hlast
    | cons a l2 =>
      simp only [collectAccessors, List.cons_append, List.cons.injEq] at hcol
      obtain ⟨ha, hcol2⟩ := hcol
      cases l2 with
      | nil =>
        simp only [List.getLast?_singleton, Option.some.injEq] at hlast
        subst hlast
        subst ha
        simpa [List.dropLast] using hx
      | cons b l3 =>
        have hlast2 : (b :: l3).getLast? = some w := by
          rw [← hlast]
          exact List.getLast?_cons_cons.symm
        have ihR := ih (b :: l3) tail x w hcol2 hlast2 hx
        subst ha
        simp only [List.dropLast_cons₂, List.foldr_cons, cloneAccess]
        simp only [typeOf]
        rw [ihR]
  | subaccess e2 idx ih =>
    intro l tail x w hcol hlast hx
    cases l with
    | nil => simp at hlast
    | cons a l2 =>
      simp only [collectAccessors, List.cons_append, List.cons.injEq] at hcol
      obtain ⟨ha, hcol2⟩ := hcol
      cases l2 with
      | nil =>
        simp only [List.getLast?_singleton, Option.some.injEq] at hlast
        subst hlast
        subst ha
        simpa [List.dropLast] using hx
      | cons b l3 =>
        have hlast2 : (b :: l3).getLast? = some w := by
          rw [← hlast]
          exact List.getLast?_cons_cons.symm
        have ihR := ih (b :: l3) tail x w hcol2 hlast2 hx
        subst ha
        simp only [List.dropLast_cons₂, List.foldr_cons, cloneAccess]
        simp only [typeOf]
        rw [ihR]

/-- One annotation-loop iteration keeps exactly the spec-side selection and
overwrites the flag exactly for zero-residual annotations. -/
lemma filterAnnoStep_eq (field : FlatBundleFieldEntry) (st : List Annotation × Bool)
    (a : Annotation) :
    filterAnnoStep field.ftype.isGround field st a =
      (st.1 ++ (specKeepAnno field a).toList,
       if decidesFlag field a then flagOf field a else st.2) := by
  match ha : a.circtFieldID with
  | none =>
    simp [filterAnnoStep, specKeepAnno, decidesFlag, ha]
  | some fid =>
    by_cases h0 : fid = 0
    · subst h0
      have hd : decidesFlag field a = false := by
        simp only [decidesFlag, ha, Bool.and_eq_false_iff, beq_eq_false_iff_ne, ne_eq,
          Option.some.injEq, bne_eq_false_iff_eq]
        by_cases hf : field.fieldID = 0
        · right
          exact hf
        · left
          intro hc
          omega
      simp only [filterAnnoStep, specKeepAnno, ha, hd]
      simp
    · by_cases hrange : (field.fieldID : Int) ≤ fid ∧
          fid ≤ (field.fieldID : Int) + (getMaxFieldID field.ftype : Int)
      · by_cases hres : fid - (field.fieldID : Int) = 0
        · have hd : decidesFlag field a = true := by
            simp only [decidesFlag, ha, Bool.and_eq_true, beq_iff_eq, Option.some.injEq,
              bne_iff_ne, ne_eq]
            constructor
            · omega
            · intro hc
              omega
          by_cases hdt : a.className = "firrtl.transforms.DontTouchAnnotation"
          · simp only [filterAnnoStep, specKeepAnno, ha, hd, flagOf, hdt]
            simp [h0, hrange, hres, hdt]
          · simp only [filterAnnoStep, specKeepAnno, ha, hd, flagOf, hdt]
            simp [h0, hrange, hres, hdt]
        · have hd : decidesFlag field a = false := by
            simp only [decidesFlag, ha, Bool.and_eq_false_iff, beq_eq_false_iff_ne, ne_eq,
              Option.some.injEq, bne_eq_false_iff_eq]
            left
            intro hc
            omega
          simp only [filterAnnoStep, specKeepAnno, ha, hd]
          simp [h0, hrange, hres]
      · have hd : decidesFlag field a = false := by
          simp only [decidesFlag, ha, Bool.and_eq_false_iff, beq_eq_false_iff_ne, ne_eq,
            Option.some.injEq, bne_eq_false_iff_eq]
          left
          intro hc
          apply hrange
          constructor
          · omega
          · omega
        simp only [filterAnnoStep, specKeepAnno, ha, hd]
        simp [h0, hrange]

/-- The annotation fold accumulates the spec-side selection and ends with the
flag of the last zero-residual annotation. -/
lemma filterAnnos_fold (field : FlatBundleFieldEntry) :
    ∀ (annos : List Annotation) (acc : List Annotation) (flag : Bool),
      annos.foldl (filterAnnoStep field.ftype.isGround field) (acc, flag) =
        (acc ++ annos.filterMap (specKeepAnno field),
         match (annos.filter (decidesFlag field)).getLast? with
         | none => flag
         | some a => flagOf field a) := by
  intro annos
  induction annos with
  | nil => simp
  | cons a rest ih =>
    intro acc flag
    rw [List.foldl_cons, filterAnnoStep_eq, ih]
    rw [Prod.ext_iff]
    constructor
    · simp only [List.filterMap_cons]
      cases hk : specKeepAnno field a <;> simp
    · simp only [List.filter_cons]
      cases hd : decidesFlag field a with
      | false => simp
      | true =>
        simp only [if_true]
        cases hfr : (rest.filter (decidesFlag field)).getLast? with
        | none =>
          have : rest.filter (decidesFlag field) = [] := List.getLast?_eq_none_iff.mp hfr
          rw [this]
          rfl
        | some b =>
          have hne2 : rest.filter (decidesFlag field) ≠ [] := by
            intro hc
            rw [hc] at hfr
            simp at hfr
          obtain ⟨c, l2, hcl⟩ := List.exists_cons_of_ne_nil hne2
          rw [hcl] at hfr ⊢
          rw [List.getLast?_cons_cons, hfr]

/-- Every member of a name list is at most as long as the longest member. -/
lemma len_le_maxNameLen {s : String} {used : List String} (h : s ∈ used) :
    s.length ≤ maxNameLen used := by
  induction used with
  | nil => simp at h
  | cons a l ih =>
    rcases List.mem_cons.mp h with rfl | hm
    · simp [maxNameLen]
    · have := ih hm
      simp only [maxNameLen, List.foldr_cons] at this ⊢
      omega

/-- With enough fuel, the fuelled search returns an unused name. -/
lemma freshenAux_not_mem :
    ∀ (fuel : Nat) (used : List String) (hint : String),
      maxNameLen used + 1 ≤ fuel + hint.length → freshenAux fuel used hint ∉ used := by
  intro fuel
  induction fuel with
  | zero =>
    intro used hint hb hmem
    simp only [freshenAux] at hmem
    have := len_le_maxNameLen hmem
    omega
  | succ f ih =>
    intro used hint hb
    unfold freshenAux
    by_cases hc : used.contains hint
    · rw [if_pos hc]
      apply ih
      have h1 : String.length "_" = 1 := rfl
      have : (hint ++ "_").length = hint.length + 1 := by
        rw [String.length_append, h1]
      omega
    · rw [if_neg hc]
      intro hmem
      exact hc (List.elem_eq_true_of_mem hmem)

/-- The fresh-name allocator never returns a used name. -/
lemma freshen_not_mem (used : List String) (hint : String) : freshen used hint ∉ used :=
  freshenAux_not_mem _ _ _ (by omega)

/-- Folding the per-target step from a state that already captured the old
path symbol appends one new path per remaining target, each sharing the base
namepath segment, each named freshly and distinctly, inserting all of them
into both tables and redirecting each target's non-local annotations. -/
lemma c4_fold (path : HierPathOp) (base : List InnerRef) :
    ∀ (rest : List PathTarget) (st : C4State),
      st.oldSym = some path.sym →
      (∃ x, st.newNamepath = base ++ [x]) →
      ∃ added : List HierPathOp,
        (rest.foldl (processTarget path) st).newPaths = st.newPaths ++ added ∧
        added.map HierPathOp.namepath = rest.map (fun r => base ++ [r.ref]) ∧
        (∀ s ∈ added.map HierPathOp.sym, s ∉ st.used) ∧
        (added.map HierPathOp.sym).Pairwise (fun a b => a ≠ b) ∧
        (rest.foldl (processTarget path) st).nla = st.nla ++ added ∧
        (rest.foldl (processTarget path) st).syms = st.syms ++ added.map HierPathOp.sym ∧
        (rest.foldl (processTarget path) st).targets =
          st.targets ++ (rest.zip added).map
            (fun pr => ⟨pr.1.ref, redirectAnnos path.sym pr.2.sym pr.1.annos⟩) := by
  intro rest
  induction rest with
  | nil =>
    intro st h1 h2
    exact ⟨[], by simp, by simp, by simp, by simp, by simp, by simp, by simp⟩
  | cons r rest2 ih =>
    intro st h1 h2
    obtain ⟨x, hnp⟩ := h2
    have hstep : processTarget path st r =
        { newNamepath := base ++ [r.ref]
          oldSym := some path.sym
          used := freshen st.used path.sym :: st.used
          nla := st.nla ++ [⟨freshen st.used path.sym, base ++ [r.ref]⟩]
          syms := st.syms ++ [freshen st.used path.sym]
          newPaths := st.newPaths ++ [⟨freshen st.used path.sym, base ++ [r.ref]⟩]
          targets := st.targets ++
            [⟨r.ref, redirectAnnos path.sym (freshen st.used path.sym) r.annos⟩] } := by
      unfold processTarget
      rw [h1]
      dsimp only
      rw [hnp, List.dropLast_concat]
    obtain ⟨added2, hp1, hp2, hp3, hp4, hp5, hp6, hp7⟩ :=
      ih (processTarget path st r) (by rw [hstep]) ⟨r.ref, by rw [hstep]⟩
    rw [hstep] at hp1 hp3 hp5 hp6 hp7
    dsimp only at hp1 hp3 hp5 hp6 hp7
    rw [List.foldl_cons, hstep]
    refine ⟨⟨freshen st.used path.sym, base ++ [r.ref]⟩ :: added2, ?_, ?_, ?_, ?_, ?_, ?_, ?_⟩
    · rw [hp1]
      simp
    · simp only [List.map_cons, hp2]
    · intro s hs
      rcases List.mem_cons.mp hs with rfl | hs2
      · exact freshen_not_mem st.used path.sym
      · have := hp3 s hs2
        simp only [List.mem_cons] at this
        intro hmem
        exact this (Or.inr hmem)
    · rw [List.map_cons]
      refine List.Pairwise.cons ?_ hp4
      intro b hb
      have := hp3 b hb
      simp only [List.mem_cons] at this
      intro hc
      exact this (Or.inl hc.symm)
    · rw [hp5]
      simp
    · rw [hp6]
      simp
    · rw [hp7]
      simp

/-!  Claim theorems. -/

/-- C1: for a connect statement (strict or conditional-polarity) whose
destination does not resolve to a dynamic vector access and whose
(aggregate) destination type peels into fields, lowering deletes the
original connect and emits exactly one connect per field, the i-th pairing
the i-th sub-element of source and destination, with the two swapped exactly
for fields whose polarity flag is inverted; this holds whatever the pass's
preserve-aggregate flag. -/
theorem claim_c1 (p : Bool) (dest src : Exp) (t : FIRRTLType)
    (hwp : getSAWritePath dest = []) (hd : typeOf dest = some t)
    (hs : typeOf src = some t) (hg : t.isGround = false) :
    visitConnectOp p dest src = some (.fieldConnects (specPerFieldConnects t dest src)) ∧
    visitStrictConnectOp p dest src =
      some (.fieldConnects (specPerFieldConnects t dest src)) := by
  have hmain : visitConnectOp p dest src =
      some (.fieldConnects (specPerFieldConnects t dest src)) := by
    cases t with
    | uint w => simp [FIRRTLType.isGround] at hg
    | sint w => simp [FIRRTLType.isGround] at hg
    | analog w => simp [FIRRTLType.isGround] at hg
    | bundle elts =>
      have hpeel : peelType (.bundle elts) false = some (peelBundleFields elts) := rfl
      have hbs := buildFieldStmts_of_bundle dest src elts elts hd hs (peelBundleFields elts)
      simp only [visitConnectOp, hwp, List.isEmpty_nil, Bool.not_true, Bool.false_eq_true,
        if_false, hd, hpeel, hbs, Option.map_some', Option.some.injEq]
      unfold specPerFieldConnects peelBundleFields
      rw [List.map_map]
      rfl
    | vector elem n =>
      have hpeel : peelType (.vector elem n) false = some (peelVectorFields elem n) := rfl
      have hbs := buildFieldStmts_of_vector dest src elem elem n n hd hs
        (peelVectorFields elem n)
      simp only [visitConnectOp, hwp, List.isEmpty_nil, Bool.not_true, Bool.false_eq_true,
        if_false, hd, hpeel, hbs, Option.map_some', Option.some.injEq]
      unfold specPerFieldConnects peelVectorFields
      rw [List.map_map]
      rfl
  refine ⟨hmain, ?_⟩
  rw [show visitStrictConnectOp p dest src = visitConnectOp p dest src from rfl]
  exact hmain

/-- Witness for C1 at a two-field bundle with a flipped first field. -/
theorem claim_c1_witness :
    visitConnectOp true c1exDest c1exSrc =
      some (.fieldConnects (specPerFieldConnects c1exTy c1exDest c1exSrc)) ∧
    visitStrictConnectOp true c1exDest c1exSrc =
      some (.fieldConnects (specPerFieldConnects c1exTy c1exDest c1exSrc)) :=
  claim_c1 true c1exDest c1exSrc c1exTy rfl rfl rfl rfl

/-- C2 counterexample: on the bundle `{a: UInt<1>, b: UInt<0>}` the code
reports zero bit width although not every reachable leaf has zero width and
the bundle has elements, refuting the claim's "exactly when every reachable
leaf has zero width, or the type has zero elements". -/
theorem claim_c2_counterexample :
    hasZeroBitWidth c2exTy = true ∧
    ¬(allLeavesZero c2exTy = true ∨ numElementsTop c2exTy = some 0) := by
  refine ⟨rfl, ?_⟩
  decide

/-- C2 (amended): the zero-bit-width recognizer reports zero bit width
exactly when some reachable node of the type is a zero-width leaf or an
aggregate with zero elements; the property is transitive through nested
aggregates. -/
theorem claim_c2 (t : FIRRTLType) :
    hasZeroBitWidth t = true ↔ ∃ s, Subnode t s ∧ ZeroNode s :=
  hasZero_iff_subnode t

/-- C3 counterexample: a zero-residual DontTouch followed by a zero-residual
local annotation yields a false needs-symbol flag, refuting the claim that a
zero-residual DontTouch always makes the returned flag true. -/
theorem claim_c3_counterexample :
    c3exDT ∈ c3exAnnos ∧
    c3exDT.className = "firrtl.transforms.DontTouchAnnotation" ∧
    c3exDT.circtFieldID = some (c3exField.fieldID : Int) ∧
    (filterAnnotations c3exField c3exAnnos).2 = false := by
  refine ⟨List.mem_cons_self _ _, rfl, rfl, ?_⟩
  rfl

/-- C3 (amended): the annotation filter retains exactly the spec-side
selection (no qualifier passes through, field ID zero is kept with the
qualifier cleared, nonzero IDs outside the field's range are dropped,
nonzero residuals are kept rebased, zero-residual DontTouch annotations are
dropped), and the needs-symbol flag is decided by the last annotation whose
field ID equals the entry's field ID: true for a DontTouch, otherwise true
iff the field is ground-typed and the annotation non-local (the flag is
overwritten, not accumulated). -/
theorem claim_c3 (field : FlatBundleFieldEntry) (annos : List Annotation) :
    (filterAnnotations field annos).1 = annos.filterMap (specKeepAnno field) ∧
    (filterAnnotations field annos).2 = specNeedsSym field annos := by
  unfold filterAnnotations specNeedsSym
  rw [filterAnnos_fold]
  constructor
  · simp
  · rfl

/-- C4: updating the hierarchical paths for one path whose terminal symbol
split into N targets produces exactly N new paths sharing all namepath
segments except the last, the first reusing the original path's name and
the rest receiving collision-free fresh names, all pairwise distinct; the
original path is removed from the NLA and symbol tables and every new path
inserted into both; and each target's non-local annotations referencing the
old path name are redirected to its own new path's name. -/
theorem claim_c4 (path : HierPathOp) (newRefs : List PathTarget) (used0 : List String)
    (nla0 : List HierPathOp) (syms0 : List String)
    (hne : newRefs ≠ []) (hnp : path.namepath ≠ []) (hmem : path.sym ∈ used0) :
    (updateOnePath path newRefs used0 nla0 syms0).newPaths.map HierPathOp.namepath =
        newRefs.map (fun r => path.namepath.dropLast ++ [r.ref]) ∧
    ((updateOnePath path newRefs used0 nla0 syms0).newPaths.map HierPathOp.sym).head? =
        some path.sym ∧
    (((updateOnePath path newRefs used0 nla0 syms0).newPaths.map HierPathOp.sym).tail.all
        fun s => !used0.contains s) = true ∧
    ((updateOnePath path newRefs used0 nla0 syms0).newPaths.map HierPathOp.sym).Pairwise
        (fun a b => a ≠ b) ∧
    (updateOnePath path newRefs used0 nla0 syms0).nla =
        (nla0.erase path) ++ (updateOnePath path newRefs used0 nla0 syms0).newPaths ∧
    (updateOnePath path newRefs used0 nla0 syms0).syms =
        (syms0.erase path.sym) ++
          (updateOnePath path newRefs used0 nla0 syms0).newPaths.map HierPathOp.sym ∧
    (updateOnePath path newRefs used0 nla0 syms0).targets =
        (newRefs.zip (updateOnePath path newRefs used0 nla0 syms0).newPaths).map
          (fun pr => ⟨pr.1.ref, redirectAnnos path.sym pr.2.sym pr.1.annos⟩) := by
  obtain ⟨r0, rest⟩ := List.exists_cons_of_ne_nil hne
  obtain ⟨rest, rfl⟩ := rest
  unfold updateOnePath
  have hstep : processTarget path ⟨path.namepath, none, used0, nla0, syms0, [], []⟩ r0 =
      { newNamepath := path.namepath.dropLast ++ [r0.ref]
        oldSym := some path.sym
        used := used0
        nla := (nla0.erase path) ++ [⟨path.sym, path.namepath.dropLast ++ [r0.ref]⟩]
        syms := (syms0.erase path.sym) ++ [path.sym]
        newPaths := [⟨path.sym, path.namepath.dropLast ++ [r0.ref]⟩]
        targets := [⟨r0.ref, redirectAnnos path.sym path.sym r0.annos⟩] } := by
    unfold processTarget
    dsimp only
    simp only [List.nil_append]
  obtain ⟨added, hp1, hp2, hp3, hp4, hp5, hp6, hp7⟩ :=
    c4_fold path path.namepath.dropLast rest
      (processTarget path ⟨path.namepath, none, used0, nla0, syms0, [], []⟩ r0)
      (by rw [hstep]) ⟨r0.ref, by rw [hstep]⟩
  rw [hstep] at hp1 hp3 hp5 hp6 hp7
  dsimp only at hp1 hp3 hp5 hp6 hp7
  rw [List.foldl_cons, hstep]
  have hnps : (List.foldl (processTarget path)
      { newNamepath := path.namepath.dropLast ++ [r0.ref]
        oldSym := some path.sym
        used := used0
        nla := (nla0.erase path) ++ [⟨path.sym, path.namepath.dropLast ++ [r0.ref]⟩]
        syms := (syms0.erase path.sym) ++ [path.sym]
        newPaths := [⟨path.sym, path.namepath.dropLast ++ [r0.ref]⟩]
        targets := [⟨r0.ref, redirectAnnos path.sym path.sym r0.annos⟩] } rest).newPaths =
      ⟨path.sym, path.namepath.dropLast ++ [r0.ref]⟩ :: added := by
    rw [hp1]
    rfl
  refine ⟨?_, ?_, ?_, ?_, ?_, ?_, ?_⟩
  · rw [hnps]
    simp only [List.map_cons, hp2]
  · rw [hnps]
    rfl
  · rw [hnps]
    simp only [List.map_cons, List.tail_cons]
    refine List.all_eq_true.mpr ?_
    intro s hs
    simpa using hp3 s hs
  · rw [hnps]
    rw [List.map_cons]
    refine List.Pairwise.cons ?_ hp4
    intro b hb
    have := hp3 b hb
    intro hc
    rw [← hc] at this
    exact this hmem
  · rw [hnps, hp5]
    simp
  · rw [hnps, hp6]
    simp
  · rw [hnps, hp7]
    simp

/-- Witness for C4 at a two-way split of the path `nla_0`. -/
theorem claim_c4_witness :
    (updateOnePath c4exPath c4exRefs c4exUsed c4exNla c4exSyms).newPaths.map
        HierPathOp.namepath =
        c4exRefs.map (fun r => c4exPath.namepath.dropLast ++ [r.ref]) ∧
    ((updateOnePath c4exPath c4exRefs c4exUsed c4exNla c4exSyms).newPaths.map
        HierPathOp.sym).head? = some c4exPath.sym ∧
    (((updateOnePath c4exPath c4exRefs c4exUsed c4exNla c4exSyms).newPaths.map
        HierPathOp.sym).tail.all fun s => !c4exUsed.contains s) = true ∧
    ((updateOnePath c4exPath c4exRefs c4exUsed c4exNla c4exSyms).newPaths.map
        HierPathOp.sym).Pairwise (fun a b => a ≠ b) ∧
    (updateOnePath c4exPath c4exRefs c4exUsed c4exNla c4exSyms).nla =
        (c4exNla.erase c4exPath) ++
          (updateOnePath c4exPath c4exRefs c4exUsed c4exNla c4exSyms).newPaths ∧
    (updateOnePath c4exPath c4exRefs c4exUsed c4exNla c4exSyms).syms =
        (c4exSyms.erase c4exPath.sym) ++
          (updateOnePath c4exPath c4exRefs c4exUsed c4exNla c4exSyms).newPaths.map
            HierPathOp.sym ∧
    (updateOnePath c4exPath c4exRefs c4exUsed c4exNla c4exSyms).targets =
        (c4exRefs.zip
            (updateOnePath c4exPath c4exRefs c4exUsed c4exNla c4exSyms).newPaths).map
          (fun pr => ⟨pr.1.ref, redirectAnnos c4exPath.sym pr.2.sym pr.1.annos⟩) :=
  claim_c4 c4exPath c4exRefs c4exUsed c4exNla c4exSyms (by decide) (by decide) (by decide)

/-- C5: a dynamic vector read lowers to a placeholder invalid value when the
vector is empty, to the equivalent static index access when the index is a
compile-time constant, and otherwise to a multiplexer keyed on the index
whose operands are all elements in descending index order (element 0 last). -/
theorem claim_c5 (input : Exp) (idx : Idx) (elemTy : FIRRTLType) (n : Nat)
    (h : typeOf input = some (.vector elemTy n)) :
    visitSubaccess input idx = some (specSubaccessResult input idx elemTy n) := by
  unfold visitSubaccess specSubaccessResult
  rw [h]
  cases n with
  | zero => simp
  | succ m =>
    cases idx with
    | const c => simp
    | dyn d =>
      simp [map_range_reverse]

/-- Witness for C5 at a 4-element vector read through a dynamic index. -/
theorem claim_c5_witness :
    visitSubaccess c5exInput (.dyn 7) =
      some (specSubaccessResult c5exInput (.dyn 7) (.uint 1) 4) :=
  claim_c5 c5exInput (.dyn 7) (.uint 1) 4 rfl

/-- C6: a connect whose destination resolves through static accessors to a
dynamic access into an n-element vector is replaced (for both connect
variants) by exactly n conditional blocks, the k-th guarded by an equality
of the dynamic index with k and containing one assignment of the source to
the write path rebuilt onto element k; each rebuilt destination has the
original destination's type, and path accessors without remaining uses are
all deleted. -/
theorem claim_c6 (p : Bool) (dest src inp : Exp) (idx : Idx) (et : FIRRTLType)
    (n : Nat) (wp : List Exp)
    (hwp : getSAWritePath dest = wp) (hne : wp ≠ [])
    (hlast : wp.getLast? = some (.subaccess inp idx))
    (hinp : typeOf inp = some (.vector et n)) :
    visitConnectOp p dest src = some (.saExpansion (specSAWhenBlocks wp src inp idx n)) ∧
    visitStrictConnectOp p dest src =
      some (.saExpansion (specSAWhenBlocks wp src inp idx n)) ∧
    (specSAWhenBlocks wp src inp idx n).map (fun b => typeOf b.body.dest) =
      List.replicate n (typeOf dest) ∧
    deadPathOps wp (fun _ => false) = wp := by
  have hempty : wp.isEmpty = false := by
    cases wp with
    | nil => exact absurd rfl hne
    | cons a l => rfl
  have hlsa : lowerSAWritePath wp src = specSAWhenBlocks wp src inp idx n := by
    unfold lowerSAWritePath specSAWhenBlocks
    rw [hlast]
    dsimp only
    rw [hinp]
  have htail := trimToSubAccess_append (collectAccessors dest)
  rw [show trimToSubAccess (collectAccessors dest) = wp from hwp] at htail
  obtain ⟨tail, htail⟩ := htail
  have hkey : ∀ k, typeOf (wp.dropLast.foldr cloneAccess (.subindex inp k)) = typeOf dest := by
    intro k
    have hx : typeOf (Exp.subindex inp k) = typeOf (Exp.subaccess inp idx) := by
      simp only [typeOf]
    exact foldr_clone_typeOf dest wp tail (.subindex inp k) (.subaccess inp idx)
      htail.symm hlast hx
  refine ⟨?_, ?_, ?_, ?_⟩
  · simp only [visitConnectOp, hwp, hempty, Bool.not_false, if_true, hlsa]
  · simp only [visitStrictConnectOp, hwp, hempty, Bool.not_false, if_true, hlsa]
  · unfold specSAWhenBlocks
    rw [List.map_map]
    rw [List.eq_replicate_iff]
    refine ⟨by simp, ?_⟩
    intro b hb
    obtain ⟨k, hk, rfl⟩ := List.mem_map.mp hb
    simpa using hkey k
  · unfold deadPathOps
    exact List.takeWhile_eq_self_iff.mpr (fun x hx => by simp)

/-- Witness for C6 at a field write through a dynamic access into a
4-element vector of bundles. -/
theorem claim_c6_witness :
    visitConnectOp true c6exDest c6exSrc =
      some (.saExpansion (specSAWhenBlocks c6exWp c6exSrc c6exRoot (.dyn 5) 4)) ∧
    visitStrictConnectOp true c6exDest c6exSrc =
      some (.saExpansion (specSAWhenBlocks c6exWp c6exSrc c6exRoot (.dyn 5) 4)) ∧
    (specSAWhenBlocks c6exWp c6exSrc c6exRoot (.dyn 5) 4).map
        (fun b => typeOf b.body.dest) = List.replicate 4 (typeOf c6exDest) ∧
    deadPathOps c6exWp (fun _ => false) = c6exWp :=
  claim_c6 true c6exDest c6exSrc c6exRoot (.dyn 5) c6exElemTy 4 c6exWp rfl
    (by unfold c6exWp; exact List.cons_ne_nil _ _) rfl rfl

/-- C7: an aggregate type is preserved under the module policy exactly when
the preserve switch is on, the module is not excluded by the
force-public-decomposition switch (which excludes external and public
modules), and the type is passive, analog-free and has nonzero bit width;
in particular preservation requires passivity, no analog and nonzero width,
and with the public switch set external or public modules never preserve. -/
theorem claim_c7 (t : FIRRTLType) (pa ppt : Bool) (m : ModuleInfo)
    (hg : t.isGround = false) :
    peelType t (isModuleAllowedToPreserveAggregate pa ppt m) = none ↔
      (pa = true ∧ (ppt = false ∨ (m.isExternal = false ∧ m.isPublic = false)) ∧
       isPassive t = true ∧ containsAnalog t = false ∧ hasZeroBitWidth t = false) := by
  rw [peelType_eq_none_iff, hg]
  obtain ⟨me, mp⟩ := m
  cases pa <;> cases ppt <;> cases me <;> cases mp <;>
    simp [isModuleAllowedToPreserveAggregate, isPreservableAggregateType, and_assoc]

/-- Witness for C7 at a preservable bundle port of a public module with both
switches set. -/
theorem claim_c7_witness :
    peelType c7exTy (isModuleAllowedToPreserveAggregate true true c7exMod) = none ↔
      (true = true ∧ (true = false ∨ (c7exMod.isExternal = false ∧ c7exMod.isPublic = false)) ∧
       isPassive c7exTy = true ∧ containsAnalog c7exTy = false ∧
       hasZeroBitWidth c7exTy = false) :=
  claim_c7 c7exTy true true c7exMod rfl

/-- C8: the type peeler reports no decomposition exactly for ground types
and for preservable types under an enabled may-preserve flag; a ground type
is never decomposed regardless of policy, and zero-element bundles and
vectors decompose to an empty field list while still reporting
decomposition. -/
theorem claim_c8 (t : FIRRTLType) (p : Bool) (e : FIRRTLType) :
    (peelType t p = none ↔
      (t.isGround = true ∨ (p = true ∧ isPreservableAggregateType t = true))) ∧
    peelType (.bundle []) p = some [] ∧ peelType (.vector e 0) p = some [] := by
  refine ⟨peelType_eq_none_iff t p, ?_, ?_⟩
  · cases p <;> rfl
  · cases p
    · rfl
    · have h : isPreservableAggregateType (FIRRTLType.vector e 0) = false := by
        simp [isPreservableAggregateType, hasZeroBitWidth]
      simp [peelType, h, peelVectorFields]

/-- C9: rewiring the consumers of a lowered aggregate producer replaces each
static field or index accessor by the mapped leaf value, and any other
consumer kind is a fatal internal-consistency error (`none`), not a
recoverable condition. -/
theorem claim_c9 (users : List AggUser) (mapping : List Exp)
    (hb : ∀ u ∈ users, ∀ i, AggUser.accessIndex u = some i → i < mapping.length) :
    processUsers users mapping =
      (if users.any (fun u => u.accessIndex == none) then none
       else some (users.filterMap fun u => u.accessIndex.bind mapping.get?)) := by
  induction users with
  | nil => simp [processUsers]
  | cons u rest ih =>
    have hbrest : ∀ v ∈ rest, ∀ i, AggUser.accessIndex v = some i → i < mapping.length :=
      fun v hv => hb v (List.mem_cons_of_mem _ hv)
    have ihr := ih hbrest
    cases u with
    | subindexUser i =>
      have hi : i < mapping.length := hb _ (List.mem_cons_self _ _) i rfl
      have hrepl2 : mapping[i]? = some mapping[i] := List.getElem?_eq_getElem hi
      have hrepl : mapping.get? i = some mapping[i] := by
        rw [List.get?_eq_getElem?]
        exact hrepl2
      have hcons : (AggUser.subindexUser i :: rest).any (fun u => u.accessIndex == none) =
          rest.any (fun u => u.accessIndex == none) := by
        simp [AggUser.accessIndex]
      have hfm : (AggUser.subindexUser i :: rest).filterMap
            (fun u => u.accessIndex.bind mapping.get?) =
          mapping[i] :: rest.filterMap (fun u => u.accessIndex.bind mapping.get?) := by
        simp [List.filterMap_cons, AggUser.accessIndex, hrepl2]
      rw [hcons, hfm]
      show (match mapping.get? i, processUsers rest mapping with
            | some repl, some tail => some (repl :: tail)
            | _, _ => none) = _
      rw [hrepl, ihr]
      by_cases hany : (rest.any (fun u => u.accessIndex == none)) = true
      · rw [if_pos hany, if_pos hany]
      · rw [if_neg hany, if_neg hany]
    | subfieldUser i =>
      have hi : i < mapping.length := hb _ (List.mem_cons_self _ _) i rfl
      have hrepl2 : mapping[i]? = some mapping[i] := List.getElem?_eq_getElem hi
      have hrepl : mapping.get? i = some mapping[i] := by
        rw [List.get?_eq_getElem?]
        exact hrepl2
      have hcons : (AggUser.subfieldUser i :: rest).any (fun u => u.accessIndex == none) =
          rest.any (fun u => u.accessIndex == none) := by
        simp [AggUser.accessIndex]
      have hfm : (AggUser.subfieldUser i :: rest).filterMap
            (fun u => u.accessIndex.bind mapping.get?) =
          mapping[i] :: rest.filterMap (fun u => u.accessIndex.bind mapping.get?) := by
        simp [List.filterMap_cons, AggUser.accessIndex, hrepl2]
      rw [hcons, hfm]
      show (match mapping.get? i, processUsers rest mapping with
            | some repl, some tail => some (repl :: tail)
            | _, _ => none) = _
      rw [hrepl, ihr]
      by_cases hany : (rest.any (fun u => u.accessIndex == none)) = true
      · rw [if_pos hany, if_pos hany]
      · rw [if_neg hany, if_neg hany]
    | otherUser =>
      have hcons : (AggUser.otherUser :: rest).any (fun u => u.accessIndex == none) = true := by
        simp [AggUser.accessIndex]
      rw [hcons, if_pos rfl]
      rfl

/-- Witness for C9 at two static accessor consumers of a two-leaf mapping. -/
theorem claim_c9_witness :
    processUsers c9exUsers c9exMapping =
      (if c9exUsers.any (fun u => u.accessIndex == none) then none
       else some (c9exUsers.filterMap fun u => u.accessIndex.bind c9exMapping.get?)) :=
  claim_c9 c9exUsers c9exMapping (by
    intro u hu i hi
    have hlen : c9exMapping.length = 2 := rfl
    rw [hlen]
    simp only [c9exUsers, List.mem_cons, List.not_mem_nil, or_false] at hu
    rcases hu with rfl | rfl <;> simp [AggUser.accessIndex] at hi <;> omega)

/-- C10: connect statements are expanded independently of the
aggregate-preservation policy: for an aggregate-typed destination whose type
is preservable (so the producer itself would be preserved, the peeler
returning no decomposition under the flag), both connect visitors still
lower the statement — the result never keeps the aggregate connect, and is
the same whatever the pass flag. -/
theorem claim_c10 (p : Bool) (dest src : Exp) (t : FIRRTLType)
    (hwp : getSAWritePath dest = []) (hd : typeOf dest = some t)
    (hg : t.isGround = false) (hpres : isPreservableAggregateType t = true) :
    peelType t true = none ∧
    visitConnectOp p dest src ≠ some .keep ∧
    visitStrictConnectOp p dest src ≠ some .keep ∧
    visitConnectOp p dest src = visitConnectOp false dest src ∧
    visitStrictConnectOp p dest src = visitStrictConnectOp false dest src := by
  obtain ⟨fields, hpeel⟩ : ∃ fs, peelType t false = some fs := by
    cases t <;> first | exact ⟨_, rfl⟩ | (simp [FIRRTLType.isGround] at hg)
  refine ⟨(peelType_eq_none_iff t true).mpr (Or.inr ⟨rfl, hpres⟩), ?_, ?_, rfl, rfl⟩
  · simp only [visitConnectOp, hwp, List.isEmpty_nil, Bool.not_true, Bool.false_eq_true,
      if_false, hd, hpeel]
    cases hbs : buildFieldStmts dest src fields <;> simp
  · simp only [visitStrictConnectOp, hwp, List.isEmpty_nil, Bool.not_true, Bool.false_eq_true,
      if_false, hd, hpeel]
    cases hbs : buildFieldStmts dest src fields <;> simp

/-- Witness for C10 at a preservable single-field bundle connect. -/
theorem claim_c10_witness :
    peelType c7exTy true = none ∧
    visitConnectOp true c10exDest c10exSrc ≠ some .keep ∧
    visitStrictConnectOp true c10exDest c10exSrc ≠ some .keep ∧
    visitConnectOp true c10exDest c10exSrc = visitConnectOp false c10exDest c10exSrc ∧
    visitStrictConnectOp true c10exDest c10exSrc =
      visitStrictConnectOp false c10exDest c10exSrc :=
  claim_c10 true c10exDest c10exSrc c7exTy rfl rfl rfl rfl

end LowerTypes